import Mathlib

/-!
Verification development for the `middleman` caching reverse proxy.

This file gives a shallow embedding of the cache subsystem:

* `lib/cache/entry.js`   — `Entry`, `KeyEntry`, `CacheEntry`
* `lib/cache/index.js`   — the `Cache` engine (index, protect/unprotect
  protocol, LRU eviction via the `lru-cache` dispose callback)
* `lib/cache/store.js`   — `MemoryStore`
* `lib/writeBuffer.js`   — `WriteBuffer`
* `index.js`             — `CachedResponse` and its `parse` / `parseJSON` codec

JavaScript timestamps (`Date.now()`) are modelled as `Int`; the unbounded
defaults (`Infinity` for `maxAge` / `maxSize`) are modelled as `Option`
(`none` = unbounded).  Asynchronous store operations are modelled by
splitting each Store-touching cache operation into its synchronous
bookkeeping steps, parameterised by the outcome (fulfil/reject) of the
store call; each function additionally returns the list of keys for which
a `store.del` call was issued, in issue order, so that claims about how
many Store deletes happen are directly statable.
-/

set_option maxHeartbeats 1000000

namespace Middleman

/-! ## Entry model (`lib/cache/entry.js`) -/

/-- `CacheEntry` from `lib/cache/entry.js`: key, creation timestamp
(`Date.now()` at construction) and an opaque value.  The value type is a
parameter `V`. -/
structure CacheEntry (V : Type) where
  key : String
  created : Int
  value : V
deriving DecidableEq, Repr

/-- `KeyEntry` from `lib/cache/entry.js`: key plus a byte size (and the
inherited `created` stamp).  These populate the in-memory LRU index. -/
structure KeyEntry where
  key : String
  size : Nat
  created : Int
deriving DecidableEq, Repr

/-! ## Cache engine state (`lib/cache/index.js`)

The mutable fields of a `Cache` instance.  `_lruCache` (the `lru-cache`
instance) is modelled as a most-recently-used-first list of `KeyEntry`s
with at most one entry per key; `_keys` (non-LRU mode) and `_protected`
are plain lists, as in the source. -/

structure Cache (V : Type) where
  lru : Bool
  /-- `_maxAge`; `none` models the `Infinity` default. -/
  maxAge : Option Int
  /-- `_maxSize` handed to `lru-cache` as `max`; `none` models `Infinity`. -/
  maxSize : Option Nat
  /-- `_keys` (only used when `lru = false`). -/
  keys : List String
  /-- `_protected` (only used when `lru = true`). -/
  protectedKeys : List String
  /-- contents of the `lru-cache` index, most recently used first. -/
  lruIndex : List KeyEntry
deriving DecidableEq, Repr

variable {V : Type}

/-- `removeElement` from `lib/cache/index.js`: splice out the first
occurrence of `val`, if present. -/
def removeElement (arr : List String) (val : String) : List String :=
  arr.erase val

/-- `Cache.prototype._isProtected`: non-LRU caches treat every key as
protected; otherwise membership in `_protected`. -/
def Cache.isProtected (c : Cache V) (k : String) : Bool :=
  if !c.lru then true else c.protectedKeys.contains k

/-- `Cache.prototype._protect`: push the key onto `_protected` when in LRU
mode and not already protected. -/
def Cache.protect (c : Cache V) (k : String) : Cache V :=
  if c.lru && !(c.isProtected k) then
    { c with protectedKeys := c.protectedKeys ++ [k] }
  else c

/-- `Cache.prototype._unProtect`: remove the key from `_protected` (LRU
mode only). -/
def Cache.unProtect (c : Cache V) (k : String) : Cache V :=
  if c.lru then { c with protectedKeys := removeElement c.protectedKeys k }
  else c

/-- `Cache.prototype._keyExistsBoth`: key membership in the LRU index or in
`_keys`. -/
def Cache.keyExistsBoth (c : Cache V) (k : String) : Bool :=
  if c.lru then (c.lruIndex.map KeyEntry.key).contains k
  else c.keys.contains k

/-- `Cache.prototype._setKey`: record a key in `_keys` (non-LRU only). -/
def Cache.setKey (c : Cache V) (k : String) : Cache V :=
  if !c.lru && !(c.keyExistsBoth k) then { c with keys := c.keys ++ [k] }
  else c

/-! ### Eviction-side deletion (`Cache.prototype._del`) and the
`lru-cache` dispose callback.

`_del` protects the key and issues `store.del(key)`; the asynchronous
continuation un-protects and emits `delete` on fulfilment, and only emits
`error` (no un-protect) on rejection.  The issued `store.del` is recorded
in the returned list. -/

/-- Synchronous prefix of `Cache.prototype._del`: protect, then issue
`store.del(key)`. -/
def Cache.delEvictStart (c : Cache V) (k : String) : Cache V × List String :=
  (c.protect k, [k])

/-- Fulfilment continuation of `Cache.prototype._del`: un-protect (the
`delete` event is also emitted, not modelled). -/
def Cache.delEvictOk (c : Cache V) (k : String) : Cache V :=
  c.unProtect k

/-- Rejection continuation of `Cache.prototype._del`: only the `error`
event is emitted; the state is untouched (in particular no un-protect). -/
def Cache.delEvictFail (c : Cache V) (_k : String) : Cache V :=
  c

/-- The `dispose` callback installed on the `lru-cache` in
`Cache.prototype.init`: run `_del(key)` unless the key is protected. -/
def Cache.dispose (c : Cache V) (k : String) : Cache V × List String :=
  if !(c.isProtected k) then c.delEvictStart k else (c, [])

/-! ### Model of the `lru-cache` dependency.

`del` fires `dispose` for an existing key and drops it; `set` inserts at
the most-recent end and then trims least-recently-used entries while the
summed `length` (here: `KeyEntry.size`) exceeds `max`, firing `dispose`
for each victim.  (`maxAge` is passed as `Infinity` by the source, so the
library's own expiry never fires.) -/

/-- Total indexed size, i.e. the lru-cache `length` aggregate. -/
def lruTotalSize (l : List KeyEntry) : Nat :=
  (l.map KeyEntry.size).sum

/-- `lru-cache` `del`: fire `dispose` and remove the entry, when present. -/
def Cache.lruDel (c : Cache V) (k : String) : Cache V × List String :=
  if (c.lruIndex.map KeyEntry.key).contains k then
    let r := c.dispose k
    ({ r.1 with lruIndex := r.1.lruIndex.filter (fun e => e.key ≠ k) }, r.2)
  else (c, [])

/-- Trim loop of `lru-cache`: while over `max`, evict the
least-recently-used entry (tail of the list), firing `dispose`.  `fuel`
bounds the recursion by the index length. -/
def Cache.lruTrim : Nat → Cache V → Cache V × List String
  | 0, c => (c, [])
  | fuel + 1, c =>
    match c.maxSize with
    | none => (c, [])
    | some m =>
      if lruTotalSize c.lruIndex > m then
        match c.lruIndex.getLast? with
        | none => (c, [])
        | some victim =>
          let r := victim.key |> c.dispose
          let c2 := { r.1 with lruIndex := r.1.lruIndex.dropLast }
          let r2 := Cache.lruTrim fuel c2
          (r2.1, r.2 ++ r2.2)
      else (c, [])

/-- `lru-cache` `set`: dispose any overwritten entry, insert at the
most-recent end, then trim. -/
def Cache.lruSet (c : Cache V) (ke : KeyEntry) : Cache V × List String :=
  let r :=
    if (c.lruIndex.map KeyEntry.key).contains ke.key then c.dispose ke.key
    else (c, [])
  let c2 := { r.1 with
    lruIndex := ke :: r.1.lruIndex.filter (fun e => e.key ≠ ke.key) }
  let r2 := Cache.lruTrim (c2.lruIndex.length) c2
  (r2.1, r.2 ++ r2.2)

/-- `Cache.prototype._removeKeyBoth`: drop a key from the index.  In LRU
mode the unsafe variant goes straight through `lruCache.del` (whose
`dispose` may issue a Store delete); the safe variant wraps the removal in
protect/unprotect. -/
def Cache.removeKeyBoth (c : Cache V) (k : String) (safe : Bool) :
    Cache V × List String :=
  if !c.lru then ({ c with keys := removeElement c.keys k }, [])
  else if !safe then c.lruDel k
  else
    let c1 := c.protect k
    let r := c1.lruDel k
    (r.1.unProtect k, r.2)

/-- Composite state reached by the safe (protect-wrapped) branch of
`_removeKeyBoth` in LRU mode: protect, `lruCache.del` (whose dispose is a
no-op on the protected key, leaving only the index filter), un-protect. -/
def Cache.afterSafeRemove (c : Cache V) (k : String) : Cache V :=
  Cache.unProtect
    { c.protect k with
      lruIndex := (c.protect k).lruIndex.filter (fun e => e.key ≠ k) } k

/-- `Cache.prototype._isValid`: the entry's age is strictly below
`_maxAge` (`none` = `Infinity`, always valid). -/
def Cache.isValid (c : Cache V) (ce : CacheEntry V) (now : Int) : Bool :=
  match c.maxAge with
  | none => true
  | some a => now - ce.created < a

/-! ### `Cache.prototype._parseCacheEntry`

The store may resolve: a falsy value, a native `CacheEntry`, or a plain
object carrying `key`/`created`/`value` fields (`Option` models a missing
or wrongly-typed field).  Any other shape throws
`"Store resolved unparsable value"`.  The `typeof value === 'string'`
branch (`JSON.parse` followed by the same object-shape check) is not
exercised by any claim and is not part of the value grammar here. -/

/-- Shapes a Store can resolve to `Cache.prototype.get`. -/
inductive StoredVal (V : Type) where
  | jnull
  | native (e : CacheEntry V)
  | obj (key? : Option String) (created? : Option Int) (value : V)
  | other
deriving DecidableEq

/-- `Cache.prototype._parseCacheEntry` (see above). `Except.error` models
the thrown `Error`. -/
def parseCacheEntry : StoredVal V → Except Unit (Option (CacheEntry V))
  | .jnull => .ok none
  | .native e => .ok (some e)
  | .obj key? created? v =>
    match key?, created? with
    | some k, some cr => .ok (some { key := k, created := cr, value := v })
    | _, _ => .error ()
  | .other => .error ()

/-- Result of `Cache.prototype.get`: `null`, `false` (invalid), a
`CacheEntry`, or the rejection raised on an unparsable store value. -/
inductive GetResult (V : Type) where
  | null
  | invalid
  | entry (e : CacheEntry V)
  | storeError
deriving DecidableEq

/-- `Cache.prototype.get`, after `store.get(key)` resolved `resolved` at
time `now`.  `vsize` abstracts `CacheEntry.prototype.size()` (the
`value.size()` / `object-sizeof` best-estimate).  Returns the new state,
the keys for which a `store.del` was issued, and the promise outcome. -/
def Cache.get (vsize : V → Nat) (c : Cache V) (k : String)
    (resolved : StoredVal V) (now : Int) :
    Cache V × List String × GetResult V :=
  match parseCacheEntry resolved with
  | .error _ =>
    -- emit "error"; _removeKeyBoth(key); reject
    let r := c.removeKeyBoth k false
    (r.1, r.2, .storeError)
  | .ok none =>
    -- _removeKeyBoth(key, true); resolve null
    let r := c.removeKeyBoth k true
    (r.1, r.2, .null)
  | .ok (some ce) =>
    if !(c.isValid ce now) then
      -- _removeKeyBoth(key); resolve false
      let r := c.removeKeyBoth k false
      (r.1, r.2, .invalid)
    else if !(c.keyExistsBoth k) then
      if !c.lru then (c.setKey k, [], .entry ce)
      else
        let r := c.lruSet { key := k, size := vsize ce.value, created := now }
        (r.1, r.2, .entry ce)
    else (c, [], .entry ce)

/-- `Cache.prototype.set`: build a fresh `CacheEntry`, remove any prior
index record (safely), call `store.set`; on fulfilment insert the index
record, on rejection propagate with no further bookkeeping. -/
def Cache.set (vsize : V → Nat) (c : Cache V) (k : String) (v : V)
    (now : Int) (storeOk : Bool) :
    Cache V × List String × Except Unit (CacheEntry V) :=
  let ce : CacheEntry V := { key := k, created := now, value := v }
  let r1 := c.removeKeyBoth k true
  if storeOk then
    if r1.1.lru then
      let r2 := r1.1.lruSet { key := k, size := vsize ce.value, created := now }
      (r2.1, r1.2 ++ r2.2, .ok ce)
    else (r1.1.setKey k, r1.2, .ok ce)
  else (r1.1, r1.2, .error ())

/-- Synchronous prefix of `Cache.prototype.del`: protect the key and issue
`store.del(key)`. -/
def Cache.delStart (c : Cache V) (k : String) : Cache V × List String :=
  (c.protect k, [k])

/-- Fulfilment continuation of `Cache.prototype.del`:
`_removeKeyBoth(key)` then `_unProtect(key)`. -/
def Cache.delOk (c : Cache V) (k : String) : Cache V × List String :=
  let r := c.removeKeyBoth k false
  (r.1.unProtect k, r.2)

/-- `Cache.prototype.del` with the `store.del` outcome as a parameter.
The source installs no rejection handler, so on rejection the state after
`delStart` is final and the failure propagates. -/
def Cache.del (c : Cache V) (k : String) (storeOk : Bool) :
    Cache V × List String × Except Unit Bool :=
  let r1 := c.delStart k
  if storeOk then
    let r2 := r1.1.delOk k
    (r2.1, r1.2 ++ r2.2, .ok true)
  else (r1.1, r1.2, .error ())

/-! ### `Cache.prototype.clear`

Snapshot the indexed keys, protect each (LRU), issue a `store.del` per key
and, as each settles, either remove-and-unprotect (fulfilled) or
unprotect-and-reject (rejected).  `ok k` gives the outcome of the
`store.del` for `k`; settles are processed in snapshot order (the engine's
bookkeeping between Store suspension points is atomic, and the per-key
handlers are independent). -/

/-- Per-key issue/settle loop of `clear` over the snapshot. -/
def Cache.clearSettle (ok : String → Bool) :
    Cache V → List String → Cache V × List String
  | c, [] => (c, [])
  | c, k :: ks =>
    if ok k then
      let r1 := c.removeKeyBoth k false
      let c2 := r1.1.unProtect k
      let r2 := Cache.clearSettle ok c2 ks
      (r2.1, (k :: r1.2) ++ r2.2)
    else
      let c2 := c.unProtect k
      let r2 := Cache.clearSettle ok c2 ks
      (r2.1, k :: r2.2)

/-- `Cache.prototype.clear`; rejects iff any per-key `store.del`
rejected (`Promise.all`). -/
def Cache.clear (c : Cache V) (ok : String → Bool) :
    Cache V × List String × Except Unit Unit :=
  let ks := if c.lru then c.lruIndex.map KeyEntry.key else c.keys
  let c1 := if c.lru then ks.foldl (fun a k => a.protect k) c else c
  let r := Cache.clearSettle ok c1 ks
  (r.1, r.2, if ks.all ok then .ok () else .error ())

/-- Interleaving for the double-delete hazard (§4.1 of the spec): an
explicit `del(key)` has run its synchronous prefix (protect + `store.del`
issued) and is awaiting settlement when a size-triggered eviction selects
the same key — the `lru-cache` drops the entry and fires the `dispose`
callback; afterwards the explicit delete's `store.del` fulfils.  Returns
the final state and every `store.del` issued during the interleaving. -/
def Cache.delWithConcurrentEvict (c : Cache V) (k : String) :
    Cache V × List String :=
  let r1 := c.delStart k
  let c1 := { r1.1 with lruIndex := r1.1.lruIndex.filter (fun e => e.key ≠ k) }
  let r2 := c1.dispose k
  let r3 := r2.1.delOk k
  (r3.1, r1.2 ++ r2.2 ++ r3.2)

/-! ## `MemoryStore` (`lib/cache/store.js`)

An in-process object map from keys to stored `CacheEntry`s, modelled as an
association list.  All three operations fulfil; `del` always resolves
`true`. -/

/-- MemoryStore state. -/
def MemoryStore (V : Type) := List (String × CacheEntry V)

/-- `MemoryStore.prototype.get`: the stored value, or `null`. -/
def MemoryStore.get (st : MemoryStore V) (k : String) : StoredVal V :=
  match List.find? (fun p => p.1 == k) st with
  | some p => .native p.2
  | none => .jnull

/-- `MemoryStore.prototype.set`: bind `k` to `e` (replacing any previous
binding). -/
def MemoryStore.set (st : MemoryStore V) (k : String) (e : CacheEntry V) :
    MemoryStore V :=
  (k, e) :: List.filter (fun p => p.1 ≠ k) st

/-- `MemoryStore.prototype.del`: drop the binding; resolves `true` whether
or not it existed. -/
def MemoryStore.del (st : MemoryStore V) (k : String) : MemoryStore V :=
  List.filter (fun p => p.1 ≠ k) st

/-! ### Cache composed with its default `MemoryStore`

Background `store.del`s issued by the dispose callback settle successfully
against a `MemoryStore` (it never rejects): the key is dropped from the
store and `_del`'s fulfilment continuation un-protects it. -/

/-- Settle a batch of issued eviction deletes against a `MemoryStore`. -/
def settleEvictions (c : Cache V) (st : MemoryStore V) (dels : List String) :
    Cache V × MemoryStore V :=
  dels.foldl (fun a k => (a.1.delEvictOk k, a.2.del k)) (c, st)

/-- `Cache.prototype.set` running against a `MemoryStore` (`store.set`
fulfils), with issued eviction deletes settled. -/
def sysSet (vsize : V → Nat) (c : Cache V) (st : MemoryStore V) (k : String)
    (v : V) (now : Int) : Cache V × MemoryStore V :=
  let r := Cache.set vsize c k v now true
  let st1 := st.set k { key := k, created := now, value := v }
  settleEvictions r.1 st1 r.2.1

/-- `Cache.prototype.get` running against a `MemoryStore`, with issued
eviction deletes settled. -/
def sysGet (vsize : V → Nat) (c : Cache V) (st : MemoryStore V) (k : String)
    (now : Int) : (Cache V × MemoryStore V) × GetResult V :=
  let r := Cache.get vsize c k (st.get k) now
  (settleEvictions r.1 st r.2.1, r.2.2)

/-! ## `WriteBuffer` (`lib/writeBuffer.js`)

A `stream.Writable` whose `_write` pushes each chunk onto `_buffer`.
`close()` nulls `_buffer` and calls `this.end()`.  A `write` on an ended
`Writable` is refused by the stream library with a synchronous
`write after end` error before `_write` is ever invoked (and even
bypassing that guard, pushing onto the nulled `_buffer` would throw). -/

/-- WriteBuffer state: `_buffer` (`none` once nulled by `close`) and the
`Writable` ended flag. -/
structure WriteBuffer where
  buffer : Option (List (List Nat))
  ended : Bool
deriving DecidableEq, Repr

namespace WriteBuffer

/-- A freshly constructed `WriteBuffer`. -/
def init : WriteBuffer := { buffer := some [], ended := false }

/-- `WriteBuffer.prototype.close`: `this._buffer = null; this.end()`. -/
def close (_w : WriteBuffer) : WriteBuffer :=
  { buffer := none, ended := true }

/-- `WriteBuffer.prototype.flush`: `this._buffer = []`. -/
def flush (w : WriteBuffer) : WriteBuffer :=
  { w with buffer := some [] }

/-- Outcome of a `write` call: the updated buffer, or the synchronous
usage error raised for a write after `end`. -/
inductive WriteOutcome where
  | ok (w : WriteBuffer)
  | errWriteAfterEnd
deriving DecidableEq, Repr

/-- `write(chunk)`: refused synchronously once the stream has ended,
otherwise `_write` pushes the chunk. -/
def write (w : WriteBuffer) (chunk : List Nat) : WriteOutcome :=
  if w.ended then .errWriteAfterEnd
  else
    match w.buffer with
    | some chunks => .ok { w with buffer := some (chunks ++ [chunk]) }
    | none => .errWriteAfterEnd

/-- `WriteBuffer.prototype.toBuffer`: concatenate the chunks
(`Buffer.concat`, empty buffer if never written); `none` when `_buffer`
has been nulled by `close` (dereferencing it would throw). -/
def toBuffer (w : WriteBuffer) : Option (List Nat) :=
  w.buffer.map List.flatten

end WriteBuffer

/-! ## `CachedResponse` and its codec (`index.js`)

`CachedResponse.parse` accepts a "CachedResponse-like" JS object: numeric
`status`, object `headers`, and a `body` that is a `Buffer`, a plain array
of byte values, or the tagged `{type: "Buffer", data: [...]}` shape that
`JSON.stringify` produces for a `Buffer`.  Anything else throws
`Invalid CachedResponse` / `Invalid CachedResponse Buffer`. -/

/-- Header mapping, as a plain JS object. -/
abbrev Headers := List (String × String)

/-- A captured response: status, headers and a materialised byte body. -/
structure CachedResponse where
  status : Int
  headers : Headers
  body : List Nat
deriving DecidableEq, Repr

/-- The dynamic shapes the `body` field of a parsed object can take. -/
inductive JBody where
  /-- `body instanceof Buffer` -/
  | buffer (data : List Nat)
  /-- `Array.isArray(body)` -/
  | array (data : List Nat)
  /-- any other object: `type` field (if a string) and `data` field (if an
  array of numbers); `none` models a missing or wrongly-typed field. -/
  | obj (type? : Option String) (data? : Option (List Nat))
  /-- `typeof body !== 'object'` and not a Buffer. -/
  | nonObject
deriving DecidableEq, Repr

/-- A JS value handed to `CachedResponse.parse`: either an object with the
three inspected fields (`status` is `some` iff numeric; `headers` is
`some` iff an object) or a non-object. -/
inductive JSVal where
  | obj (status? : Option Int) (headers? : Option Headers) (body : JBody)
  | nonObject
deriving DecidableEq, Repr

/-- `CachedResponse.parse`.  `new Buffer(arrayOfNumbers)` coerces each
element to a byte, modelled by `% 256`. -/
def CachedResponse.parse : JSVal → Except Unit CachedResponse
  | .nonObject => .error ()
  | .obj none _ _ => .error ()
  | .obj _ none _ => .error ()
  | .obj (some st) (some hs) body =>
    match body with
    | .nonObject => .error ()
    | .buffer data => .ok { status := st, headers := hs, body := data }
    | .array data =>
      .ok { status := st, headers := hs, body := data.map (· % 256) }
    | .obj type? data? =>
      if type? = some "Buffer" then
        match data? with
        | some data =>
          .ok { status := st, headers := hs, body := data.map (· % 256) }
        | none => .error ()
      else .error ()

/-- The wire form of a `CachedResponse`: `JSON.stringify` projects the
fields directly and serialises the `Buffer` body via `Buffer#toJSON` into
the tagged `{type: "Buffer", data: [...]}` object; `parseJSON` is
`CachedResponse.parse` of the parsed text. -/
def CachedResponse.toWire (cr : CachedResponse) : JSVal :=
  .obj (some cr.status) (some cr.headers) (.obj (some "Buffer") (some cr.body))

/-! ## Basic lemmas about the bookkeeping primitives -/

theorem contains_eq_decide_mem (l : List String) (a : String) :
    l.contains a = decide (a ∈ l) := by
  simp [List.elem_iff]

theorem contains_eq_true_iff {l : List String} {a : String} :
    l.contains a = true ↔ a ∈ l := by
  simp [contains_eq_decide_mem]

theorem contains_eq_false_iff {l : List String} {a : String} :
    l.contains a = false ↔ a ∉ l := by
  simp [contains_eq_decide_mem]

theorem protect_lru (c : Cache V) (k : String) : (c.protect k).lru = c.lru := by
  unfold Cache.protect
  split <;> rfl

theorem protect_lruIndex (c : Cache V) (k : String) :
    (c.protect k).lruIndex = c.lruIndex := by
  unfold Cache.protect
  split <;> rfl

theorem protect_keys (c : Cache V) (k : String) :
    (c.protect k).keys = c.keys := by
  unfold Cache.protect
  split <;> rfl

theorem protect_maxAge (c : Cache V) (k : String) :
    (c.protect k).maxAge = c.maxAge := by
  unfold Cache.protect
  split <;> rfl

theorem protect_maxSize (c : Cache V) (k : String) :
    (c.protect k).maxSize = c.maxSize := by
  unfold Cache.protect
  split <;> rfl

theorem unProtect_lru (c : Cache V) (k : String) :
    (c.unProtect k).lru = c.lru := by
  unfold Cache.unProtect
  split <;> rfl

theorem unProtect_lruIndex (c : Cache V) (k : String) :
    (c.unProtect k).lruIndex = c.lruIndex := by
  unfold Cache.unProtect
  split <;> rfl

theorem unProtect_keys (c : Cache V) (k : String) :
    (c.unProtect k).keys = c.keys := by
  unfold Cache.unProtect
  split <;> rfl

theorem unProtect_maxAge (c : Cache V) (k : String) :
    (c.unProtect k).maxAge = c.maxAge := by
  unfold Cache.unProtect
  split <;> rfl

theorem unProtect_maxSize (c : Cache V) (k : String) :
    (c.unProtect k).maxSize = c.maxSize := by
  unfold Cache.unProtect
  split <;> rfl

theorem isProtected_eq_contains (c : Cache V) (k : String)
    (h : c.lru = true) :
    c.isProtected k = c.protectedKeys.contains k := by
  simp [Cache.isProtected, h]

theorem isProtected_of_mem {c : Cache V} {k : String}
    (hm : k ∈ c.protectedKeys) : c.isProtected k = true := by
  unfold Cache.isProtected
  split
  · rfl
  · exact contains_eq_true_iff.mpr hm

theorem protect_protectedKeys (c : Cache V) (k : String) :
    (c.protect k).protectedKeys =
      if c.lru && !(c.isProtected k) then c.protectedKeys ++ [k]
      else c.protectedKeys := by
  unfold Cache.protect
  split <;> rfl

theorem mem_protect_self (c : Cache V) (k : String) (h : c.lru = true) :
    k ∈ (c.protect k).protectedKeys := by
  rw [protect_protectedKeys]
  by_cases hp : c.isProtected k = true
  · rw [if_neg (by simp [hp])]
    rw [isProtected_eq_contains c k h] at hp
    exact contains_eq_true_iff.mp hp
  · rw [if_pos (by simp [h, eq_false_of_ne_true hp])]
    simp

theorem isProtected_protect_self (c : Cache V) (k : String)
    (h : c.lru = true) : (c.protect k).isProtected k = true :=
  isProtected_of_mem (mem_protect_self c k h)

theorem mem_protect_iff (c : Cache V) (k x : String) (h : c.lru = true) :
    x ∈ (c.protect k).protectedKeys ↔ x ∈ c.protectedKeys ∨ x = k := by
  rw [protect_protectedKeys]
  by_cases hp : c.isProtected k = true
  · rw [if_neg (by simp [hp])]
    rw [isProtected_eq_contains c k h] at hp
    have hk := contains_eq_true_iff.mp hp
    constructor
    · exact Or.inl
    · rintro (hx | rfl)
      · exact hx
      · exact hk
  · rw [if_pos (by simp [h, eq_false_of_ne_true hp])]
    simp

theorem protect_nodup (c : Cache V) (k : String)
    (h : c.protectedKeys.Nodup) : (c.protect k).protectedKeys.Nodup := by
  rw [protect_protectedKeys]
  by_cases hp : c.isProtected k = true
  · rw [if_neg (by simp [hp])]
    exact h
  · by_cases hl : c.lru = true
    · rw [if_pos (by simp [hl, eq_false_of_ne_true hp])]
      have hk : k ∉ c.protectedKeys := fun hm => hp (isProtected_of_mem hm)
      simp [List.nodup_append, h, hk]
    · rw [if_neg (by simp [eq_false_of_ne_true hl])]
      exact h

theorem unProtect_protectedKeys (c : Cache V) (k : String)
    (h : c.lru = true) :
    (c.unProtect k).protectedKeys = c.protectedKeys.erase k := by
  simp [Cache.unProtect, removeElement, h]

theorem dispose_of_protected (c : Cache V) (k : String)
    (h : c.isProtected k = true) : c.dispose k = (c, []) := by
  simp [Cache.dispose, h]

theorem lruIndex_filter_self {l : List KeyEntry} {k : String}
    (h : k ∉ l.map KeyEntry.key) :
    l.filter (fun e => e.key ≠ k) = l := by
  apply List.filter_eq_self.mpr
  intro e he
  have : e.key ≠ k := fun hk => h (List.mem_map.mpr ⟨e, he, hk⟩)
  simpa using this

theorem lruDel_of_protected (c : Cache V) (k : String)
    (h : c.isProtected k = true) :
    c.lruDel k =
      ({ c with lruIndex := c.lruIndex.filter (fun e => e.key ≠ k) }, []) := by
  by_cases hc : (c.lruIndex.map KeyEntry.key).contains k = true
  · simp only [Cache.lruDel, hc, if_true, dispose_of_protected c k h]
  · have hc' : (c.lruIndex.map KeyEntry.key).contains k = false := by
      simpa using hc
    have hne : k ∉ c.lruIndex.map KeyEntry.key :=
      fun hm => hc (contains_eq_true_iff.mpr hm)
    simp only [Cache.lruDel, hc', Bool.false_eq_true, if_false,
      lruIndex_filter_self hne]

theorem lruTrim_of_no_maxSize (n : Nat) (c : Cache V)
    (h : c.maxSize = none) : Cache.lruTrim n c = (c, []) := by
  cases n <;> simp [Cache.lruTrim, h]

theorem not_mem_map_key_filter (l : List KeyEntry) (k : String) :
    k ∉ (l.filter (fun e => e.key ≠ k)).map KeyEntry.key := by
  intro hm
  rcases List.mem_map.mp hm with ⟨e, he, hk⟩
  rcases List.mem_filter.mp he with ⟨_, hne⟩
  simp at hne
  exact hne hk

theorem dispose_fst_lru (c : Cache V) (k : String) :
    (c.dispose k).1.lru = c.lru := by
  unfold Cache.dispose Cache.delEvictStart
  split
  · exact protect_lru c k
  · rfl

theorem dispose_fst_lruIndex (c : Cache V) (k : String) :
    (c.dispose k).1.lruIndex = c.lruIndex := by
  unfold Cache.dispose Cache.delEvictStart
  split
  · exact protect_lruIndex c k
  · rfl

theorem dispose_fst_keys (c : Cache V) (k : String) :
    (c.dispose k).1.keys = c.keys := by
  unfold Cache.dispose Cache.delEvictStart
  split
  · exact protect_keys c k
  · rfl

theorem dispose_fst_maxAge (c : Cache V) (k : String) :
    (c.dispose k).1.maxAge = c.maxAge := by
  unfold Cache.dispose Cache.delEvictStart
  split
  · exact protect_maxAge c k
  · rfl

theorem dispose_fst_maxSize (c : Cache V) (k : String) :
    (c.dispose k).1.maxSize = c.maxSize := by
  unfold Cache.dispose Cache.delEvictStart
  split
  · exact protect_maxSize c k
  · rfl

theorem lruDel_fst_lru (c : Cache V) (k : String) :
    (c.lruDel k).1.lru = c.lru := by
  unfold Cache.lruDel
  split
  · exact dispose_fst_lru c k
  · rfl

theorem lruDel_fst_keys (c : Cache V) (k : String) :
    (c.lruDel k).1.keys = c.keys := by
  unfold Cache.lruDel
  split
  · exact dispose_fst_keys c k
  · rfl

theorem lruDel_fst_maxAge (c : Cache V) (k : String) :
    (c.lruDel k).1.maxAge = c.maxAge := by
  unfold Cache.lruDel
  split
  · exact dispose_fst_maxAge c k
  · rfl

theorem lruDel_fst_maxSize (c : Cache V) (k : String) :
    (c.lruDel k).1.maxSize = c.maxSize := by
  unfold Cache.lruDel
  split
  · exact dispose_fst_maxSize c k
  · rfl

theorem lruDel_fst_lruIndex (c : Cache V) (k : String) :
    (c.lruDel k).1.lruIndex = c.lruIndex.filter (fun e => e.key ≠ k) := by
  unfold Cache.lruDel
  by_cases hc : (c.lruIndex.map KeyEntry.key).contains k = true
  · rw [if_pos hc]
    show (c.dispose k).1.lruIndex.filter _ = _
    rw [dispose_fst_lruIndex]
  · rw [if_neg hc]
    exact (lruIndex_filter_self fun hm => hc (contains_eq_true_iff.mpr hm)).symm

theorem removeKeyBoth_nonlru (c : Cache V) (k : String) (safe : Bool)
    (hlru : c.lru = false) :
    c.removeKeyBoth k safe =
      ({ c with keys := removeElement c.keys k }, []) := by
  unfold Cache.removeKeyBoth
  rw [hlru]
  simp

theorem removeKeyBoth_unsafe_lru (c : Cache V) (k : String)
    (hlru : c.lru = true) : c.removeKeyBoth k false = c.lruDel k := by
  unfold Cache.removeKeyBoth
  rw [hlru]
  simp

theorem removeKeyBoth_safe_lru (c : Cache V) (k : String)
    (hlru : c.lru = true) :
    c.removeKeyBoth k true =
      (((c.protect k).lruDel k).1.unProtect k, ((c.protect k).lruDel k).2) := by
  unfold Cache.removeKeyBoth
  rw [hlru]
  simp

theorem removeKeyBoth_unsafe_of_protected (c : Cache V) (k : String)
    (hlru : c.lru = true) (h : c.isProtected k = true) :
    c.removeKeyBoth k false =
      ({ c with lruIndex := c.lruIndex.filter (fun e => e.key ≠ k) }, []) := by
  rw [removeKeyBoth_unsafe_lru c k hlru, lruDel_of_protected c k h]

theorem removeKeyBoth_not_keyExists (c : Cache V) (k : String) (safe : Bool)
    (hnd : c.keys.Nodup) :
    (c.removeKeyBoth k safe).1.keyExistsBoth k = false := by
  by_cases hlru : c.lru = true
  · cases safe
    · rw [removeKeyBoth_unsafe_lru c k hlru]
      unfold Cache.keyExistsBoth
      rw [lruDel_fst_lru, hlru, if_pos rfl, lruDel_fst_lruIndex]
      exact contains_eq_false_iff.mpr (not_mem_map_key_filter _ _)
    · rw [removeKeyBoth_safe_lru c k hlru]
      unfold Cache.keyExistsBoth
      rw [unProtect_lru, lruDel_fst_lru, protect_lru, hlru, if_pos rfl,
        unProtect_lruIndex, lruDel_fst_lruIndex, protect_lruIndex]
      exact contains_eq_false_iff.mpr (not_mem_map_key_filter _ _)
  · have hlru' : c.lru = false := by simpa using hlru
    rw [removeKeyBoth_nonlru c k safe hlru']
    unfold Cache.keyExistsBoth
    simp only [hlru', Bool.false_eq_true, if_false, removeElement]
    exact contains_eq_false_iff.mpr hnd.not_mem_erase

theorem protected_evict_then_delOk_snd (c1 : Cache V) (k : String)
    (hlru : c1.lru = true) (hp : c1.isProtected k = true) :
    [k] ++ (c1.dispose k).2 ++ ((c1.dispose k).1.delOk k).2 = [k] := by
  rw [dispose_of_protected c1 k hp]
  show [k] ++ [] ++ (c1.removeKeyBoth k false).2 = [k]
  rw [removeKeyBoth_unsafe_of_protected c1 k hlru hp]
  rfl

theorem lruSet_no_maxSize (c : Cache V) (ke : KeyEntry)
    (hms : c.maxSize = none) (hnk : ke.key ∉ c.lruIndex.map KeyEntry.key) :
    c.lruSet ke =
      ({ c with lruIndex :=
          ke :: c.lruIndex.filter (fun e => e.key ≠ ke.key) }, []) := by
  have hc2 : ({ c with lruIndex :=
      ke :: c.lruIndex.filter (fun e => e.key ≠ ke.key) } : Cache V).maxSize
      = none := hms
  unfold Cache.lruSet
  rw [if_neg (fun h => hnk (contains_eq_true_iff.mp h))]
  show ((Cache.lruTrim _ _).1, [] ++ (Cache.lruTrim _ _).2) = _
  rw [lruTrim_of_no_maxSize _ _ hc2]
  rfl

theorem removeKeyBoth_safe_of_lru (c : Cache V) (k : String)
    (hlru : c.lru = true) :
    c.removeKeyBoth k true = (c.afterSafeRemove k, []) := by
  rw [removeKeyBoth_safe_lru c k hlru,
    lruDel_of_protected (c.protect k) k (isProtected_protect_self c k hlru)]
  rfl

theorem afterSafeRemove_lru (c : Cache V) (k : String) :
    (c.afterSafeRemove k).lru = c.lru := by
  unfold Cache.afterSafeRemove
  rw [unProtect_lru]
  exact protect_lru c k

theorem afterSafeRemove_maxAge (c : Cache V) (k : String) :
    (c.afterSafeRemove k).maxAge = c.maxAge := by
  unfold Cache.afterSafeRemove
  rw [unProtect_maxAge]
  exact protect_maxAge c k

theorem afterSafeRemove_maxSize (c : Cache V) (k : String) :
    (c.afterSafeRemove k).maxSize = c.maxSize := by
  unfold Cache.afterSafeRemove
  rw [unProtect_maxSize]
  exact protect_maxSize c k

theorem afterSafeRemove_lruIndex (c : Cache V) (k : String) :
    (c.afterSafeRemove k).lruIndex
      = c.lruIndex.filter (fun e => e.key ≠ k) := by
  unfold Cache.afterSafeRemove
  rw [unProtect_lruIndex]
  show (c.protect k).lruIndex.filter (fun e => e.key ≠ k)
    = c.lruIndex.filter (fun e => e.key ≠ k)
  rw [protect_lruIndex]

theorem set_ok_lru_components (vsize : V → Nat) (c : Cache V) (k : String)
    (v : V) (now : Int) (hlru : c.lru = true) (hms : c.maxSize = none) :
    (Cache.set vsize c k v now true).2.1 = [] ∧
    (Cache.set vsize c k v now true).2.2 = Except.ok ⟨k, now, v⟩ ∧
    (Cache.set vsize c k v now true).1.lru = c.lru ∧
    (Cache.set vsize c k v now true).1.maxAge = c.maxAge ∧
    (Cache.set vsize c k v now true).1.keyExistsBoth k = true := by
  have hr1 := removeKeyBoth_safe_of_lru c k hlru
  have hMlru : (c.afterSafeRemove k).lru = true := by
    rw [afterSafeRemove_lru]
    exact hlru
  have hMms : (c.afterSafeRemove k).maxSize = none := by
    rw [afterSafeRemove_maxSize]
    exact hms
  have hnk : (⟨k, vsize v, now⟩ : KeyEntry).key
      ∉ (c.afterSafeRemove k).lruIndex.map KeyEntry.key := by
    rw [afterSafeRemove_lruIndex]
    exact not_mem_map_key_filter _ _
  have hlset := lruSet_no_maxSize (c.afterSafeRemove k) ⟨k, vsize v, now⟩
    hMms hnk
  have hset : Cache.set vsize c k v now true =
      ({ c.afterSafeRemove k with lruIndex := ⟨k, vsize v, now⟩ ::
          (c.afterSafeRemove k).lruIndex.filter (fun e => e.key ≠ k) }, [],
        Except.ok ⟨k, now, v⟩) := by
    simp [Cache.set, hr1, hMlru, hlset]
  rw [hset]
  refine ⟨rfl, rfl, ?_, ?_, ?_⟩
  · show (c.afterSafeRemove k).lru = c.lru
    exact afterSafeRemove_lru c k
  · show (c.afterSafeRemove k).maxAge = c.maxAge
    exact afterSafeRemove_maxAge c k
  · unfold Cache.keyExistsBoth
    simp [hMlru]

theorem set_ok_nonlru_components (vsize : V → Nat) (c : Cache V)
    (k : String) (v : V) (now : Int) (hlru : c.lru = false)
    (hnd : c.keys.Nodup) :
    (Cache.set vsize c k v now true).2.1 = [] ∧
    (Cache.set vsize c k v now true).2.2 = Except.ok ⟨k, now, v⟩ ∧
    (Cache.set vsize c k v now true).1.lru = c.lru ∧
    (Cache.set vsize c k v now true).1.maxAge = c.maxAge ∧
    (Cache.set vsize c k v now true).1.keyExistsBoth k = true := by
  have hr1 := removeKeyBoth_nonlru c k true hlru
  have hset : Cache.set vsize c k v now true =
      (({ c with keys := removeElement c.keys k } : Cache V).setKey k, [],
        Except.ok ⟨k, now, v⟩) := by
    simp [Cache.set, hr1, hlru]
  have hkex : ({ c with keys := removeElement c.keys k } :
      Cache V).keyExistsBoth k = false := by
    unfold Cache.keyExistsBoth
    simp only [hlru, Bool.false_eq_true, if_false, removeElement]
    exact contains_eq_false_iff.mpr hnd.not_mem_erase
  have hcond : (!({ c with keys := removeElement c.keys k } : Cache V).lru
      && !({ c with keys := removeElement c.keys k } :
        Cache V).keyExistsBoth k) = true := by
    rw [hkex]
    show (!c.lru && !false) = true
    rw [hlru]
    rfl
  have hsetKey : ({ c with keys := removeElement c.keys k } :
      Cache V).setKey k =
      { c with keys := removeElement c.keys k ++ [k] } := by
    unfold Cache.setKey
    rw [if_pos hcond]
  rw [hset, hsetKey]
  refine ⟨rfl, rfl, rfl, rfl, ?_⟩
  unfold Cache.keyExistsBoth
  simp [hlru, contains_eq_decide_mem]

theorem clearSettle_spec (ok : String → Bool) (ks : List String) :
    ∀ c : Cache V, c.lru = true → ks.Nodup → c.protectedKeys.Nodup →
      (∀ x ∈ ks, x ∈ c.protectedKeys) →
      (Cache.clearSettle ok c ks).2 = ks ∧
      (Cache.clearSettle ok c ks).1.lru = true ∧
      (Cache.clearSettle ok c ks).1.lruIndex
        = c.lruIndex.filter (fun e => !(ks.contains e.key && ok e.key)) ∧
      (∀ x, x ∈ (Cache.clearSettle ok c ks).1.protectedKeys ↔
        x ∈ c.protectedKeys ∧ x ∉ ks) := by
  induction ks with
  | nil =>
    intro c hlru _ _ _
    refine ⟨rfl, hlru, ?_, ?_⟩
    · exact (List.filter_eq_self.mpr (fun e _ => by simp)).symm
    · intro x
      simp [Cache.clearSettle]
  | cons k ks ih =>
    intro c hlru hnd hpnd hmem
    have hkprot : k ∈ c.protectedKeys := hmem k (List.mem_cons_self k ks)
    have hknotks : k ∉ ks := (List.nodup_cons.mp hnd).1
    have hndks : ks.Nodup := (List.nodup_cons.mp hnd).2
    by_cases hok : ok k = true
    · -- store.del for k fulfils: _removeKeyBoth(key) then _unProtect(key)
      have hrm := removeKeyBoth_unsafe_of_protected c k hlru
        (isProtected_of_mem hkprot)
      have hstep : Cache.clearSettle ok c (k :: ks) =
          ((Cache.clearSettle ok (({ c with lruIndex := c.lruIndex.filter (fun e => e.key ≠ k) } : Cache V).unProtect k) ks).1,
            k :: (Cache.clearSettle ok (({ c with lruIndex := c.lruIndex.filter (fun e => e.key ≠ k) } : Cache V).unProtect k) ks).2) := by
        simp [Cache.clearSettle, hok, hrm]
      have hC2lru : (({ c with lruIndex := c.lruIndex.filter (fun e => e.key ≠ k) } : Cache V).unProtect k).lru = true := by
        rw [unProtect_lru]
        exact hlru
      have hC2prot : (({ c with lruIndex := c.lruIndex.filter (fun e => e.key ≠ k) } : Cache V).unProtect k).protectedKeys = c.protectedKeys.erase k := by
        rw [unProtect_protectedKeys _ k (show ({ c with lruIndex := c.lruIndex.filter (fun e => e.key ≠ k) } : Cache V).lru = true from hlru)]
      have hC2idx : (({ c with lruIndex := c.lruIndex.filter (fun e => e.key ≠ k) } : Cache V).unProtect k).lruIndex = c.lruIndex.filter (fun e => e.key ≠ k) := by
        rw [unProtect_lruIndex]
      obtain ⟨ho, hl, hi, hp⟩ := ih
        (({ c with lruIndex := c.lruIndex.filter (fun e => e.key ≠ k) } : Cache V).unProtect k) hC2lru hndks
        (by rw [hC2prot]; exact hpnd.erase k)
        (by
          intro x hx
          rw [hC2prot]
          have hxk : x ≠ k := fun h => hknotks (h ▸ hx)
          exact (List.mem_erase_of_ne hxk).mpr (hmem x (List.mem_cons_of_mem k hx)))
      rw [hstep]
      refine ⟨by rw [ho], hl, ?_, ?_⟩
      · rw [hi, hC2idx, List.filter_filter]
        apply List.filter_congr
        intro e _
        by_cases hek : e.key = k
        · simp [hek, hok]
        · simp [hek, List.contains_cons]
      · intro x
        rw [hp x, hC2prot]
        constructor
        · rintro ⟨hx, hxks⟩
          have hxk : x ≠ k := by
            intro h
            exact hpnd.not_mem_erase (h ▸ hx)
          refine ⟨(List.mem_erase_of_ne hxk).mp hx, ?_⟩
          intro hmem2
          rcases List.mem_cons.mp hmem2 with h | h
          · exact hxk h
          · exact hxks h
        · rintro ⟨hx, hxkks⟩
          have hxk : x ≠ k := fun h => hxkks (h ▸ List.mem_cons_self k ks)
          exact ⟨(List.mem_erase_of_ne hxk).mpr hx,
            fun hxks => hxkks (List.mem_cons_of_mem k hxks)⟩
    · -- store.del for k rejects: only _unProtect(key) runs
      have hok' : ok k = false := by simpa using hok
      have hstep : Cache.clearSettle ok c (k :: ks) =
          ((Cache.clearSettle ok (c.unProtect k) ks).1,
            k :: (Cache.clearSettle ok (c.unProtect k) ks).2) := by
        simp [Cache.clearSettle, hok']
      have hC2lru : (c.unProtect k).lru = true := by
        rw [unProtect_lru]
        exact hlru
      have hC2prot : (c.unProtect k).protectedKeys
          = c.protectedKeys.erase k := unProtect_protectedKeys c k hlru
      obtain ⟨ho, hl, hi, hp⟩ := ih (c.unProtect k) hC2lru hndks
        (by rw [hC2prot]; exact hpnd.erase k)
        (by
          intro x hx
          rw [hC2prot]
          have hxk : x ≠ k := fun h => hknotks (h ▸ hx)
          exact (List.mem_erase_of_ne hxk).mpr (hmem x (List.mem_cons_of_mem k hx)))
      rw [hstep]
      refine ⟨by rw [ho], hl, ?_, ?_⟩
      · rw [hi, unProtect_lruIndex]
        apply List.filter_congr
        intro e _
        by_cases hek : e.key = k
        · simp [hek, hok', contains_eq_false_iff.mpr hknotks]
        · simp [hek, List.contains_cons]
      · intro x
        rw [hp x, hC2prot]
        constructor
        · rintro ⟨hx, hxks⟩
          have hxk : x ≠ k := by
            intro h
            exact hpnd.not_mem_erase (h ▸ hx)
          refine ⟨(List.mem_erase_of_ne hxk).mp hx, ?_⟩
          intro hmem2
          rcases List.mem_cons.mp hmem2 with h | h
          · exact hxk h
          · exact hxks h
        · rintro ⟨hx, hxkks⟩
          have hxk : x ≠ k := fun h => hxkks (h ▸ List.mem_cons_self k ks)
          exact ⟨(List.mem_erase_of_ne hxk).mpr hx,
            fun hxks => hxkks (List.mem_cons_of_mem k hxks)⟩

theorem foldl_protect_spec (ks : List String) :
    ∀ c : Cache V, c.lru = true →
      (ks.foldl (fun a k => a.protect k) c).lru = true ∧
      (ks.foldl (fun a k => a.protect k) c).lruIndex = c.lruIndex ∧
      (c.protectedKeys.Nodup →
        (ks.foldl (fun a k => a.protect k) c).protectedKeys.Nodup) ∧
      (∀ x, x ∈ (ks.foldl (fun a k => a.protect k) c).protectedKeys ↔
        x ∈ c.protectedKeys ∨ x ∈ ks) := by
  induction ks with
  | nil =>
    intro c hlru
    refine ⟨hlru, rfl, fun h => h, ?_⟩
    intro x
    simp
  | cons k ks ih =>
    intro c hlru
    have hplru : (c.protect k).lru = true := by
      rw [protect_lru]
      exact hlru
    obtain ⟨h1, h2, h3, h4⟩ := ih (c.protect k) hplru
    rw [List.foldl_cons]
    refine ⟨h1, ?_, ?_, ?_⟩
    · rw [h2, protect_lruIndex]
    · intro hnd
      exact h3 (protect_nodup c k hnd)
    · intro x
      rw [h4 x, mem_protect_iff c k x hlru, List.mem_cons]
      tauto

theorem set_ok_components (vsize : V → Nat) (c : Cache V) (k : String)
    (v : V) (now : Int) (hms : c.maxSize = none) (hnd : c.keys.Nodup) :
    (Cache.set vsize c k v now true).2.1 = [] ∧
    (Cache.set vsize c k v now true).2.2 = Except.ok ⟨k, now, v⟩ ∧
    (Cache.set vsize c k v now true).1.lru = c.lru ∧
    (Cache.set vsize c k v now true).1.maxAge = c.maxAge ∧
    (Cache.set vsize c k v now true).1.keyExistsBoth k = true := by
  by_cases hlru : c.lru = true
  · exact set_ok_lru_components vsize c k v now hlru hms
  · exact set_ok_nonlru_components vsize c k v now (by simpa using hlru) hnd

/-! ## Claims -/

/-- C2: when an explicit `del(key)` is in flight (its `store.del` has been
issued but not settled) and a size-triggered eviction of the same key
fires concurrently — the LRU dispose callback running while the key is
protected — exactly one `store.del` call is issued for that key, never
two: the dispose callback finds the key protected and is a no-op, and the
delete's own settle issues no further Store call. -/
theorem del_concurrent_evict_single_store_del (c : Cache V) (k : String)
    (hlru : c.lru = true) :
    (c.delWithConcurrentEvict k).2 = [k] := by
  have hps := isProtected_protect_self c k hlru
  have hps1 : ({ c.protect k with
      lruIndex := (c.protect k).lruIndex.filter (fun e => e.key ≠ k) } :
        Cache V).isProtected k = true := hps
  have hlru1 : ({ c.protect k with
      lruIndex := (c.protect k).lruIndex.filter (fun e => e.key ≠ k) } :
        Cache V).lru = true := by
    show (c.protect k).lru = true
    rw [protect_lru]
    exact hlru
  show [k] ++ _ ++ _ = [k]
  exact protected_evict_then_delOk_snd _ k hlru1 hps1

/-- Witness for C2 at a concrete LRU cache holding one entry. -/
theorem del_concurrent_evict_single_store_del_witness :
    ((⟨true, none, none, [], [], [⟨"a", 1, 0⟩]⟩ : Cache Int).lru = true) ∧
    ((⟨true, none, none, [], [], [⟨"a", 1, 0⟩]⟩ : Cache Int).delWithConcurrentEvict
        "a").2 = ["a"] :=
  ⟨rfl, del_concurrent_evict_single_store_del _ "a" rfl⟩

/-- C1 counterexample: the claim states that once the `store.del` of a
Store-deleting operation has settled the key is no longer in the protected
set, and in particular that a rejected `store.del` during `del(key)`
leaves the key unprotected.  On the code, `del` installs no rejection
handler: after a failed `store.del` the key is still protected (while the
failure does propagate). -/
theorem del_failure_leaves_protected_counterexample :
    (Cache.del (⟨true, none, none, [], [], [⟨"a", 1, 0⟩]⟩ : Cache Int)
        "a" false).1.isProtected "a" = true ∧
    (Cache.del (⟨true, none, none, [], [], [⟨"a", 1, 0⟩]⟩ : Cache Int)
        "a" false).2.2 = Except.error () :=
  ⟨rfl, rfl⟩

/-- C1 (amended): when `store.del` fulfils, `del(key)` removes the key
from the protected set (and has issued exactly one `store.del`); when
`store.del` rejects — during `del(key)` or during an eviction — the
failure propagates to the `del` caller but the key REMAINS in the
protected set: neither `del` nor the eviction's `_del` un-protects on
failure (only `clear` does). -/
theorem del_protection_amended (c : Cache V) (k : String)
    (hlru : c.lru = true) (hnd : c.protectedKeys.Nodup) :
    (Cache.del c k true).1.isProtected k = false ∧
    (Cache.del c k true).2.1 = [k] ∧
    (Cache.del c k false).1.isProtected k = true ∧
    (Cache.del c k false).2.2 = Except.error () ∧
    ((c.delEvictStart k).1.delEvictFail k).isProtected k = true := by
  have hps := isProtected_protect_self c k hlru
  have hplru : (c.protect k).lru = true := by
    rw [protect_lru]
    exact hlru
  have hrm := removeKeyBoth_unsafe_of_protected (c.protect k) k hplru hps
  refine ⟨?_, ?_, hps, rfl, hps⟩
  · show (((c.protect k).removeKeyBoth k false).1.unProtect k).isProtected k
      = false
    rw [hrm]
    have hlru2 : ({ c.protect k with
        lruIndex := (c.protect k).lruIndex.filter (fun e => e.key ≠ k) } :
          Cache V).lru = true := hplru
    rw [isProtected_eq_contains _ k (by rw [unProtect_lru]; exact hlru2),
      unProtect_protectedKeys _ k hlru2]
    exact contains_eq_false_iff.mpr (protect_nodup c k hnd).not_mem_erase
  · show [k] ++ ((c.protect k).removeKeyBoth k false).2 = [k]
    rw [hrm]
    rfl

/-- Witness for C1's amended statement at a concrete LRU cache. -/
theorem del_protection_amended_witness :
    ((⟨true, none, none, [], [], [⟨"a", 1, 0⟩]⟩ : Cache Int).lru = true) ∧
    ((⟨true, none, none, [], [], [⟨"a", 1, 0⟩]⟩ :
        Cache Int).protectedKeys.Nodup) ∧
    ((Cache.del (⟨true, none, none, [], [], [⟨"a", 1, 0⟩]⟩ : Cache Int)
        "a" true).1.isProtected "a" = false ∧
      (Cache.del (⟨true, none, none, [], [], [⟨"a", 1, 0⟩]⟩ : Cache Int)
        "a" true).2.1 = ["a"] ∧
      (Cache.del (⟨true, none, none, [], [], [⟨"a", 1, 0⟩]⟩ : Cache Int)
        "a" false).1.isProtected "a" = true ∧
      (Cache.del (⟨true, none, none, [], [], [⟨"a", 1, 0⟩]⟩ : Cache Int)
        "a" false).2.2 = Except.error () ∧
      (((⟨true, none, none, [], [], [⟨"a", 1, 0⟩]⟩ :
          Cache Int).delEvictStart "a").1.delEvictFail
            "a").isProtected "a" = true) :=
  ⟨rfl, by decide, del_protection_amended _ "a" rfl (by decide)⟩

/-- C3 counterexample: the claim states that an expired `get(key)` removes
the key from the index without issuing any `store.del`.  In the default
LRU mode, the invalid-entry path calls `_removeKeyBoth(key)` WITHOUT the
protect wrapper, so `lruCache.del` fires the dispose callback, which finds
the key unprotected and issues a `store.del` — here the issued-delete list
is `["a"]`, not `[]`. -/
theorem get_expired_issues_store_del_counterexample :
    (Cache.get (fun _ => 4)
        (⟨true, some 10, none, [], [], [⟨"a", 4, 0⟩]⟩ : Cache Int)
        "a" (.native ⟨"a", 0, 0⟩) 11).2.1 = ["a"] ∧
    (Cache.get (fun _ => 4)
        (⟨true, some 10, none, [], [], [⟨"a", 4, 0⟩]⟩ : Cache Int)
        "a" (.native ⟨"a", 0, 0⟩) 11).2.2 = GetResult.invalid :=
  ⟨rfl, rfl⟩

/-- C3 (amended): a `get(key)` whose indexed entry has exceeded
`maxAgeMillis` resolves `false` and removes the key from the index; with
`useSizeEviction` disabled no `store.del` is issued, but in the default
LRU mode the unprotected index removal triggers the dispose callback,
which issues exactly one eviction-style `store.del` for the key (the
Store record is deleted in the background rather than left unchanged). -/
theorem get_expired_behavior (vsize : V → Nat) (c : Cache V) (k : String)
    (ce : CacheEntry V) (now : Int)
    (hexp : c.isValid ce now = false) (hnd : c.keys.Nodup) :
    (Cache.get vsize c k (.native ce) now).2.2 = GetResult.invalid ∧
    (Cache.get vsize c k (.native ce) now).1.keyExistsBoth k = false ∧
    (c.lru = false → (Cache.get vsize c k (.native ce) now).2.1 = []) ∧
    (c.lru = true → k ∈ c.lruIndex.map KeyEntry.key →
      c.isProtected k = false →
      (Cache.get vsize c k (.native ce) now).2.1 = [k]) := by
  have hget : Cache.get vsize c k (.native ce) now =
      ((c.removeKeyBoth k false).1, (c.removeKeyBoth k false).2,
        GetResult.invalid) := by
    simp only [Cache.get, parseCacheEntry]
    rw [hexp]
    simp
  rw [hget]
  refine ⟨rfl, removeKeyBoth_not_keyExists c k false hnd, ?_, ?_⟩
  · intro hlru
    rw [removeKeyBoth_nonlru c k false hlru]
  · intro hlru hmem hprot
    rw [removeKeyBoth_unsafe_lru c k hlru]
    unfold Cache.lruDel
    rw [if_pos (contains_eq_true_iff.mpr hmem)]
    show (c.dispose k).2 = [k]
    unfold Cache.dispose
    rw [hprot]
    simp [Cache.delEvictStart]

/-- Witness for C3's amended statement, LRU side, at a concrete state. -/
theorem get_expired_behavior_witness :
    ((⟨true, some 10, none, [], [], [⟨"a", 4, 0⟩]⟩ : Cache Int).isValid
        ⟨"a", 0, 0⟩ 11 = false) ∧
    ((⟨true, some 10, none, [], [], [⟨"a", 4, 0⟩]⟩ :
        Cache Int).keys.Nodup) ∧
    (Cache.get (fun _ => 4)
        (⟨true, some 10, none, [], [], [⟨"a", 4, 0⟩]⟩ : Cache Int)
        "a" (.native ⟨"a", 0, 0⟩) 11).2.2 = GetResult.invalid ∧
    (Cache.get (fun _ => 4)
        (⟨true, some 10, none, [], [], [⟨"a", 4, 0⟩]⟩ : Cache Int)
        "a" (.native ⟨"a", 0, 0⟩) 11).1.keyExistsBoth "a" = false :=
  ⟨by decide, by decide,
    (get_expired_behavior (fun _ => 4) _ "a" ⟨"a", 0, 0⟩ 11 (by decide)
      (by decide)).1,
    (get_expired_behavior (fun _ => 4) _ "a" ⟨"a", 0, 0⟩ 11 (by decide)
      (by decide)).2.1⟩

/-- C4: on a freshly initialised default (LRU) cache over its MemoryStore
with `maxAge = A`, a key set at `t0` and read back at `t0 + A + ε`
(`ε > 0`, no intervening operations) resolves `false`; the read purges the
entry (index removal plus the background eviction-delete against the
MemoryStore), so a subsequent `get` resolves the absence marker `null`. -/
theorem get_after_expiry_false_then_null (vsize : V → Nat) (k : String)
    (v : V) (t0 A eps t2 : Int) (heps : 0 < eps) :
    (sysGet vsize
      (sysGet vsize
        (sysSet vsize
          (⟨true, some A, none, [], [], []⟩ : Cache V) [] k v t0).1
        (sysSet vsize
          (⟨true, some A, none, [], [], []⟩ : Cache V) [] k v t0).2
        k (t0 + A + eps)).1.1
      (sysGet vsize
        (sysSet vsize
          (⟨true, some A, none, [], [], []⟩ : Cache V) [] k v t0).1
        (sysSet vsize
          (⟨true, some A, none, [], [], []⟩ : Cache V) [] k v t0).2
        k (t0 + A + eps)).1.2
      k t2).2 = GetResult.null ∧
    (sysGet vsize
      (sysSet vsize
        (⟨true, some A, none, [], [], []⟩ : Cache V) [] k v t0).1
      (sysSet vsize
        (⟨true, some A, none, [], [], []⟩ : Cache V) [] k v t0).2
      k (t0 + A + eps)).2 = GetResult.invalid := by
  have hs1 : sysSet vsize (⟨true, some A, none, [], [], []⟩ : Cache V)
      [] k v t0 =
      ((⟨true, some A, none, [], [], [⟨k, vsize v, t0⟩]⟩ : Cache V),
        [(k, ⟨k, t0, v⟩)]) := by
    simp [sysSet, Cache.set, Cache.removeKeyBoth, Cache.protect,
      Cache.isProtected, Cache.unProtect, removeElement, Cache.lruDel,
      Cache.lruSet, Cache.lruTrim, Cache.dispose, Cache.delEvictStart,
      settleEvictions, MemoryStore.set, lruTotalSize]
  have hval : ((⟨true, some A, none, [], [], [⟨k, vsize v, t0⟩]⟩ :
      Cache V).isValid ⟨k, t0, v⟩ (t0 + A + eps)) = false := by
    simp only [Cache.isValid, decide_eq_false_iff_not]
    omega
  have hg1 : sysGet vsize
      (⟨true, some A, none, [], [], [⟨k, vsize v, t0⟩]⟩ : Cache V)
      [(k, ⟨k, t0, v⟩)] k (t0 + A + eps) =
      (((⟨true, some A, none, [], [], []⟩ : Cache V), []),
        GetResult.invalid) := by
    simp [sysGet, Cache.get, MemoryStore.get, parseCacheEntry, hval,
      Cache.removeKeyBoth, Cache.lruDel, Cache.dispose, Cache.isProtected,
      Cache.protect, Cache.delEvictStart, settleEvictions, Cache.delEvictOk,
      Cache.unProtect, removeElement, MemoryStore.del]
  have hg2 : sysGet vsize (⟨true, some A, none, [], [], []⟩ : Cache V)
      [] k t2 =
      (((⟨true, some A, none, [], [], []⟩ : Cache V), []),
        GetResult.null) := by
    simp [sysGet, Cache.get, MemoryStore.get, parseCacheEntry,
      Cache.removeKeyBoth, Cache.lruDel, Cache.dispose, Cache.isProtected,
      Cache.protect, Cache.delEvictStart, settleEvictions,
      Cache.unProtect, removeElement]
  rw [hs1, hg1, hg2]
  exact ⟨rfl, rfl⟩

/-- Witness for C4 at concrete key, value, times. -/
theorem get_after_expiry_false_then_null_witness :
    ((0 : Int) < 1) ∧
    (sysGet (fun _ => (1 : Nat))
      (sysGet (fun _ => (1 : Nat))
        (sysSet (fun _ => (1 : Nat))
          (⟨true, some 10, none, [], [], []⟩ : Cache Int) [] "k" 42 0).1
        (sysSet (fun _ => (1 : Nat))
          (⟨true, some 10, none, [], [], []⟩ : Cache Int) [] "k" 42 0).2
        "k" (0 + 10 + 1)).1.1
      (sysGet (fun _ => (1 : Nat))
        (sysSet (fun _ => (1 : Nat))
          (⟨true, some 10, none, [], [], []⟩ : Cache Int) [] "k" 42 0).1
        (sysSet (fun _ => (1 : Nat))
          (⟨true, some 10, none, [], [], []⟩ : Cache Int) [] "k" 42 0).2
        "k" (0 + 10 + 1)).1.2
      "k" 99).2 = GetResult.null ∧
    (sysGet (fun _ => (1 : Nat))
      (sysSet (fun _ => (1 : Nat))
        (⟨true, some 10, none, [], [], []⟩ : Cache Int) [] "k" 42 0).1
      (sysSet (fun _ => (1 : Nat))
        (⟨true, some 10, none, [], [], []⟩ : Cache Int) [] "k" 42 0).2
      "k" (0 + 10 + 1)).2 = GetResult.invalid :=
  ⟨by decide,
    (get_after_expiry_false_then_null (fun _ => 1) "k" 42 0 10 1 99
      (by decide)).1,
    (get_after_expiry_false_then_null (fun _ => 1) "k" 42 0 10 1 99
      (by decide)).2⟩

/-- C5: `set(key, v)` immediately followed by `get(key)` (no intervening
eviction or deletion; in particular no size bound and a not-yet-expired
entry) resolves a Value Entry whose value is `v` and whose `created`
timestamp lies between the time of the `set` and the time of the `get`,
so its age is bounded by the elapsed wall time. -/
theorem set_then_get_resolves_fresh_entry (vsize : V → Nat) (c : Cache V)
    (st : MemoryStore V) (k : String) (v : V) (t0 t1 : Int)
    (hms : c.maxSize = none) (hnd : c.keys.Nodup)
    (hfresh : ∀ a : Int, c.maxAge = some a → t1 - t0 < a) (ht : t0 ≤ t1) :
    ∃ ce : CacheEntry V,
      (sysGet vsize (sysSet vsize c st k v t0).1
        (sysSet vsize c st k v t0).2 k t1).2 = GetResult.entry ce ∧
      ce.value = v ∧ t0 ≤ ce.created ∧ ce.created ≤ t1 ∧
      t1 - ce.created ≤ t1 - t0 := by
  obtain ⟨hdels, hok, hclru, hcma, hkex⟩ :=
    set_ok_components vsize c k v t0 hms hnd
  have hsys1 : sysSet vsize c st k v t0 =
      ((Cache.set vsize c k v t0 true).1, st.set k ⟨k, t0, v⟩) := by
    simp only [sysSet, hdels, settleEvictions, List.foldl_nil]
  have hmsget : (st.set k (⟨k, t0, v⟩ : CacheEntry V)).get k
      = StoredVal.native ⟨k, t0, v⟩ := by
    simp [MemoryStore.set, MemoryStore.get, List.find?_cons_of_pos]
  have hvalid : (Cache.set vsize c k v t0 true).1.isValid ⟨k, t0, v⟩ t1
      = true := by
    unfold Cache.isValid
    rw [hcma]
    cases hma : c.maxAge with
    | none => rfl
    | some a =>
      show decide (t1 - t0 < a) = true
      exact decide_eq_true (hfresh a hma)
  have hget : Cache.get vsize (Cache.set vsize c k v t0 true).1 k
      (StoredVal.native ⟨k, t0, v⟩) t1 =
      ((Cache.set vsize c k v t0 true).1, [],
        GetResult.entry ⟨k, t0, v⟩) := by
    simp only [Cache.get, parseCacheEntry]
    rw [hvalid, hkex]
    simp
  refine ⟨⟨k, t0, v⟩, ?_, rfl, le_refl t0, ht, le_refl _⟩
  rw [hsys1]
  show (sysGet vsize (Cache.set vsize c k v t0 true).1
    (st.set k ⟨k, t0, v⟩) k t1).2 = _
  simp only [sysGet, hmsget, hget, settleEvictions, List.foldl_nil]

/-- Witness for C5 at concrete inputs. -/
theorem set_then_get_resolves_fresh_entry_witness :
    ((⟨true, some 10, none, [], [], []⟩ : Cache Int).maxSize = none) ∧
    ((⟨true, some 10, none, [], [], []⟩ : Cache Int).keys.Nodup) ∧
    (∀ a : Int, (⟨true, some 10, none, [], [], []⟩ : Cache Int).maxAge
      = some a → 5 - 0 < a) ∧
    ((0 : Int) ≤ 5) ∧
    (∃ ce : CacheEntry Int,
      (sysGet (fun _ => 1)
        (sysSet (fun _ => 1) (⟨true, some 10, none, [], [], []⟩ : Cache Int)
          [] "k" 42 0).1
        (sysSet (fun _ => 1) (⟨true, some 10, none, [], [], []⟩ : Cache Int)
          [] "k" 42 0).2 "k" 5).2 = GetResult.entry ce ∧
      ce.value = 42 ∧ (0 : Int) ≤ ce.created ∧ ce.created ≤ 5 ∧
      (5 : Int) - ce.created ≤ 5 - 0) :=
  ⟨rfl, by decide, by intro a ha; injection ha with h; omega, by decide,
    set_then_get_resolves_fresh_entry (fun _ => 1) _ [] "k" 42 0 5 rfl
      (by decide) (by intro a ha; injection ha with h; omega) (by decide)⟩

/-- C6: `clear()` snapshots the indexed keys, protects them all up front,
and issues exactly one `store.del` per currently-indexed key; the whole
`clear()` rejects exactly when some individual `store.del` rejects; every
key whose `store.del` fulfilled is removed from the index, every key whose
`store.del` rejected remains present, and after all deletes settle no
snapshot key is left protected (failed keys are un-protected again, not
wedged). -/
theorem clear_spec (c : Cache V) (ok : String → Bool)
    (hlru : c.lru = true)
    (hknd : (c.lruIndex.map KeyEntry.key).Nodup)
    (hpnd : c.protectedKeys.Nodup) :
    (Cache.clear c ok).2.1 = c.lruIndex.map KeyEntry.key ∧
    ((Cache.clear c ok).2.2 = Except.error () ↔
      ∃ x ∈ c.lruIndex.map KeyEntry.key, ok x = false) ∧
    (∀ x ∈ c.lruIndex.map KeyEntry.key, ok x = true →
      (Cache.clear c ok).1.keyExistsBoth x = false) ∧
    (∀ x ∈ c.lruIndex.map KeyEntry.key, ok x = false →
      (Cache.clear c ok).1.keyExistsBoth x = true) ∧
    (∀ x ∈ c.lruIndex.map KeyEntry.key,
      x ∉ (Cache.clear c ok).1.protectedKeys) := by
  have hclear : Cache.clear c ok =
      ((Cache.clearSettle ok ((c.lruIndex.map KeyEntry.key).foldl (fun a k => a.protect k) c) (c.lruIndex.map KeyEntry.key)).1,
        (Cache.clearSettle ok ((c.lruIndex.map KeyEntry.key).foldl (fun a k => a.protect k) c) (c.lruIndex.map KeyEntry.key)).2,
        if (c.lruIndex.map KeyEntry.key).all ok then Except.ok ()
        else Except.error ()) := by
    simp [Cache.clear, hlru]
  obtain ⟨f1, f2, f3, f4⟩ :=
    foldl_protect_spec (c.lruIndex.map KeyEntry.key) c hlru
  obtain ⟨s1, s2, s3, s4⟩ := clearSettle_spec ok (c.lruIndex.map KeyEntry.key)
    ((c.lruIndex.map KeyEntry.key).foldl (fun a k => a.protect k) c)
    f1 hknd (f3 hpnd) (fun x hx => (f4 x).mpr (Or.inr hx))
  rw [hclear]
  refine ⟨s1, ?_, ?_, ?_, ?_⟩
  · by_cases hall : (c.lruIndex.map KeyEntry.key).all ok = true
    · rw [if_pos hall]
      constructor
      · intro h
        simp at h
      · rintro ⟨x, hx, hfx⟩
        rw [List.all_eq_true] at hall
        rw [hall x hx] at hfx
        simp at hfx
    · rw [if_neg hall]
      constructor
      · intro _
        have h2 : ¬ ∀ x ∈ c.lruIndex.map KeyEntry.key, ok x = true := by
          rw [← List.all_eq_true]
          exact hall
        push_neg at h2
        obtain ⟨x, hx, hnx⟩ := h2
        exact ⟨x, hx, by simpa using hnx⟩
      · intro _
        rfl
  · intro x hx hokx
    unfold Cache.keyExistsBoth
    rw [if_pos s2, s3, f2]
    apply contains_eq_false_iff.mpr
    intro hmem
    rcases List.mem_map.mp hmem with ⟨e, he, hek⟩
    rcases List.mem_filter.mp he with ⟨hein, hpred⟩
    rw [hek, contains_eq_true_iff.mpr hx, hokx] at hpred
    simp at hpred
  · intro x hx hokx
    unfold Cache.keyExistsBoth
    rw [if_pos s2, s3, f2]
    apply contains_eq_true_iff.mpr
    rcases List.mem_map.mp hx with ⟨e, he, hek⟩
    apply List.mem_map.mpr
    refine ⟨e, List.mem_filter.mpr ⟨he, ?_⟩, hek⟩
    rw [hek]
    simp [hokx]
  · intro x hx hmem
    exact ((s4 x).mp hmem).2 hx

/-- Witness for C6: a two-entry LRU cache where the Store delete of "b"
rejects and the delete of "a" fulfils. -/
theorem clear_spec_witness :
    ((⟨true, none, none, [], [], [⟨"a", 1, 0⟩, ⟨"b", 2, 0⟩]⟩ :
        Cache Int).lru = true) ∧
    (((⟨true, none, none, [], [], [⟨"a", 1, 0⟩, ⟨"b", 2, 0⟩]⟩ :
        Cache Int).lruIndex.map KeyEntry.key).Nodup) ∧
    ((⟨true, none, none, [], [], [⟨"a", 1, 0⟩, ⟨"b", 2, 0⟩]⟩ :
        Cache Int).protectedKeys.Nodup) ∧
    ((Cache.clear (⟨true, none, none, [], [], [⟨"a", 1, 0⟩, ⟨"b", 2, 0⟩]⟩ :
        Cache Int) (fun k => !(k == "b"))).2.1
      = (⟨true, none, none, [], [], [⟨"a", 1, 0⟩, ⟨"b", 2, 0⟩]⟩ :
        Cache Int).lruIndex.map KeyEntry.key ∧
      ((Cache.clear (⟨true, none, none, [], [], [⟨"a", 1, 0⟩, ⟨"b", 2, 0⟩]⟩ :
          Cache Int) (fun k => !(k == "b"))).2.2 = Except.error () ↔
        ∃ x ∈ (⟨true, none, none, [], [], [⟨"a", 1, 0⟩, ⟨"b", 2, 0⟩]⟩ :
          Cache Int).lruIndex.map KeyEntry.key, (fun k => !(k == "b")) x = false) ∧
      (∀ x ∈ (⟨true, none, none, [], [], [⟨"a", 1, 0⟩, ⟨"b", 2, 0⟩]⟩ :
          Cache Int).lruIndex.map KeyEntry.key, (fun k => !(k == "b")) x = true →
        (Cache.clear (⟨true, none, none, [], [], [⟨"a", 1, 0⟩, ⟨"b", 2, 0⟩]⟩ :
          Cache Int) (fun k => !(k == "b"))).1.keyExistsBoth x = false) ∧
      (∀ x ∈ (⟨true, none, none, [], [], [⟨"a", 1, 0⟩, ⟨"b", 2, 0⟩]⟩ :
          Cache Int).lruIndex.map KeyEntry.key, (fun k => !(k == "b")) x = false →
        (Cache.clear (⟨true, none, none, [], [], [⟨"a", 1, 0⟩, ⟨"b", 2, 0⟩]⟩ :
          Cache Int) (fun k => !(k == "b"))).1.keyExistsBoth x = true) ∧
      (∀ x ∈ (⟨true, none, none, [], [], [⟨"a", 1, 0⟩, ⟨"b", 2, 0⟩]⟩ :
          Cache Int).lruIndex.map KeyEntry.key,
        x ∉ (Cache.clear (⟨true, none, none, [], [], [⟨"a", 1, 0⟩, ⟨"b", 2, 0⟩]⟩ :
          Cache Int) (fun k => !(k == "b"))).1.protectedKeys)) :=
  ⟨rfl, by decide, by decide, clear_spec _ _ rfl (by decide) (by decide)⟩

/-- C9: after `close()` has been called on a Response Capture Buffer, any
subsequent `write(chunk)` fails with a usage error, synchronously at the
call site. -/
theorem write_after_close_fails (w : WriteBuffer) (chunk : List Nat) :
    (w.close).write chunk = WriteBuffer.WriteOutcome.errWriteAfterEnd :=
  rfl

/-- C7: encoding a Cached Response to its wire form (JSON serialisation,
in which the `Buffer` body becomes the tagged `type`/`data` object) and
decoding it back yields a Cached Response with identical status, headers
and body bytes. -/
theorem cachedResponse_roundtrip (cr : CachedResponse)
    (hbytes : ∀ b ∈ cr.body, b < 256) :
    CachedResponse.parse (CachedResponse.toWire cr) = Except.ok cr := by
  have hb : cr.body.map (fun b => b % 256) = cr.body := by
    conv_rhs => rw [← List.map_id cr.body]
    exact List.map_congr_left fun b hm => Nat.mod_eq_of_lt (hbytes b hm)
  cases cr with
  | mk st hs body =>
    show CachedResponse.parse
        (.obj (some st) (some hs) (.obj (some "Buffer") (some body)))
      = Except.ok ⟨st, hs, body⟩
    simp only [CachedResponse.parse] at hb ⊢
    simp [hb]

/-- Witness for C7 at a concrete response with body "test". -/
theorem cachedResponse_roundtrip_witness :
    (∀ b ∈ [(116 : Nat), 101, 115, 116], b < 256) ∧
    CachedResponse.parse (CachedResponse.toWire
        ⟨200, [("Content-Type", "text/plain")], [116, 101, 115, 116]⟩)
      = Except.ok ⟨200, [("Content-Type", "text/plain")],
          [116, 101, 115, 116]⟩ :=
  ⟨by decide, cachedResponse_roundtrip _ (by decide)⟩

/-- C8: decoding `{status: 200, headers: {}, body: [116, 101, 115, 116]}`
succeeds with a body equal to the bytes of "test", while decoding
`{status: 200, headers: {}, body: {}}` (a body of unrecognised shape)
fails with a decoding error rather than being silently coerced. -/
theorem cachedResponse_parse_array_and_bad_body :
    CachedResponse.parse
        (.obj (some 200) (some []) (.array [116, 101, 115, 116]))
      = Except.ok { status := 200, headers := [], body := [116, 101, 115, 116] } ∧
    CachedResponse.parse (.obj (some 200) (some []) (.obj none none))
      = Except.error () :=
  ⟨rfl, rfl⟩

/-- C10: `set(key, v)` removes the key's prior index entry before
`store.set` settles, and on a `store.set` rejection the old index record
is not restored: the failed `set` leaves exactly the post-removal state,
the key is absent from the index, and the failure propagates. -/
theorem set_store_failure_keeps_key_unindexed (vsize : V → Nat)
    (c : Cache V) (k : String) (v : V) (now : Int) (hnd : c.keys.Nodup) :
    (Cache.set vsize c k v now false).1 = (c.removeKeyBoth k true).1 ∧
    (Cache.set vsize c k v now false).1.keyExistsBoth k = false ∧
    (Cache.set vsize c k v now false).2.2 = Except.error () :=
  ⟨rfl, removeKeyBoth_not_keyExists c k true hnd, rfl⟩

/-- Witness for C10 at a concrete non-LRU cache with the key indexed. -/
theorem set_store_failure_keeps_key_unindexed_witness :
    ((⟨false, none, none, ["k", "j"], [], []⟩ : Cache Int).keys.Nodup) ∧
    ((Cache.set (fun _ => 1) (⟨false, none, none, ["k", "j"], [], []⟩ :
        Cache Int) "k" 5 0 false).1.keyExistsBoth "k" = false ∧
      (Cache.set (fun _ => 1) (⟨false, none, none, ["k", "j"], [], []⟩ :
        Cache Int) "k" 5 0 false).2.2 = Except.error ()) :=
  ⟨by decide,
    (set_store_failure_keeps_key_unindexed (fun _ => 1) _ "k" 5 0
      (by decide)).2.1,
    (set_store_failure_keeps_key_unindexed (fun _ => 1) _ "k" 5 0
      (by decide)).2.2⟩

end Middleman
